import Mathlib

/-!
Verification of the terong repository (a software KVM switch written in Go)
against its natural-language specification.

The Go source is shallowly embedded: pure functions become Lean functions,
machine integers become `Nat` with explicit `% 2 ^ w` where overflow matters,
byte streams become `List Nat` (each element a byte value), fallible code
returns `Option`, and the event-loop bodies become explicit step functions on
state types.  Every definition is translated from the Go source; definitions
that follow the specification's wording instead (for comparison) say so in
their doc comment.
-/

namespace Terong

/-! ## Frame codec (src/go/transport/transport.go)

`writeUint16` embeds Go's `writeUint16`, which writes
`[]byte{byte(v >> 8), byte(v)}` - big-endian byte order.  `byte(x)` truncates
to 8 bits, hence the explicit `% 256`.
-/

/-- Go `writeUint16`: the two big-endian bytes of a 16-bit value. -/
def writeUint16 (v : Nat) : List Nat :=
  [v / 256 % 256, v % 256]

/-- Go `readUint16` via `io.ReadFull` on a 2-byte buffer: takes two bytes off
the stream and combines them big-endian; `none` models the `io.ReadFull`
error on a short stream. -/
def readUint16 : List Nat → Option (Nat × List Nat)
  | a :: b :: rest => some (a * 256 + b, rest)
  | _ => none

/-- Go `ValueMaxLength = 1024 - 2 /\x7b tag \x7d - 2 /\x7b length \x7d` (= 1020). -/
def ValueMaxLength : Nat := 1024 - 2 - 2

/-- Wire tags, from the `Tag` constant block in transport.go
(`TagMouseMove Tag = iota + 1`, ...). -/
def TagMouseMove : Nat := 1

/-- Wire tag of `MouseClick`. -/
def TagMouseClick : Nat := 2

/-- Wire tag of `MouseScroll`. -/
def TagMouseScroll : Nat := 3

/-- Wire tag of `KeyPress`. -/
def TagKeyPress : Nat := 4

/-- Wire tag of ping frames. -/
def TagPing : Nat := 5

/-- Go `transport.Frame`: `Tag` and `Length` are `uint16` fields (so callers
establish `tag < 2 ^ 16`); `Value` is the byte slice. -/
structure Frame where
  tag : Nat
  length : Nat
  value : List Nat
deriving DecidableEq, Repr

/-- Go `WriteFrame`: writes the tag, the length (both big-endian 16-bit) and
then `frm.Value[:frm.Length]` (modeled by `List.take`). -/
def WriteFrame (frm : Frame) : List Nat :=
  writeUint16 frm.tag ++ writeUint16 frm.length ++ frm.value.take frm.length

/-- Go `(*Session).WritePing` builds `Frame\x7bTag: TagPing, Length: 0\x7d`
(nil value) and writes it. -/
def WritePing : List Nat :=
  WriteFrame ⟨TagPing, 0, []⟩

/-- Go `ReadFrame`: reads the tag, the length, then exactly `length` value
bytes (`io.ReadFull` on a `make([]byte, length)` buffer), and only afterwards
compares `length` with `ValueMaxLength`.  The result carries the parsed
frame, a flag that is `true` exactly when the Go function returns the frame
together with `ErrMaxLengthExceeded`, and the unconsumed rest of the stream.
`none` models the short-read error paths, on which Go returns `Frame\x7b\x7d`
and the wrapped `io` error. -/
def ReadFrame (input : List Nat) : Option (Frame × Bool × List Nat) :=
  match readUint16 input with
  | none => none
  | some (tag, r1) =>
    match readUint16 r1 with
    | none => none
    | some (length, r2) =>
      if length ≤ r2.length then
        some (⟨tag, length, r2.take length⟩,
              decide (ValueMaxLength < length),
              r2.drop length)
      else
        none

/-! Helper lemmas about the codec. -/

theorem writeUint16_readUint16 (v : Nat) (h : v < 65536) (rest : List Nat) :
    readUint16 (writeUint16 v ++ rest) = some (v, rest) := by
  simp only [writeUint16, readUint16, List.cons_append, List.nil_append]
  congr 1
  congr 1
  omega

/-- Parsing a well-formed on-wire frame: the header fields come back, the
value is cut out of the stream, the overflow flag reflects the 1020 ceiling,
and exactly `4 + L` bytes are consumed. -/
theorem readFrame_concat (tag L : Nat) (value rest : List Nat)
    (htag : tag < 65536) (hL : L < 65536) (hlen : value.length = L) :
    ReadFrame (writeUint16 tag ++ writeUint16 L ++ value ++ rest) =
      some (⟨tag, L, value⟩, decide (ValueMaxLength < L), rest) := by
  have hle : L ≤ (value ++ rest).length := by
    simp [List.length_append, hlen]
  simp only [ReadFrame, List.append_assoc, writeUint16_readUint16 tag htag,
    writeUint16_readUint16 L hL, if_pos hle]
  subst hlen
  rw [List.take_left, List.drop_left]

/-! ## Canonical event model (src/go/inputevent/inputevent.go) -/

/-- Go `MouseButton` (`MouseButtonLeft = 1`, ... `MouseButtonMouse5 = 5`). -/
inductive MouseButton
  | left
  | right
  | middle
  | mouse4
  | mouse5
deriving DecidableEq, Repr

/-- Go `MouseButtonAction` (`Down = 1`, `Up = 2`). -/
inductive MouseButtonAction
  | down
  | up
deriving DecidableEq, Repr

/-- Go `MouseScrollDirection` (`MouseScrollUp = 1`, `MouseScrollDown = 2`). -/
inductive MouseScrollDirection
  | up
  | down
deriving DecidableEq, Repr

/-- Go `KeyAction`: `rep` stands for `KeyActionRepeat`. -/
inductive KeyAction
  | down
  | rep
  | up
deriving DecidableEq, Repr

/-- Go `KeyCode` is a `uint16` drawn from a closed enumeration
(`Escape = 1`, ..., `Right`); only equality of codes matters here. -/
abbrev KeyCode : Type := Nat

/-- Go `inputevent.RightCtrl`: ordinal 72 of the `KeyCode` enumeration
(`Escape = 1`, `F1..F12 = 2..13`, `PrintScreen..Grave = 14..17`,
`D1..D0 = 18..27`, `Minus, Equal = 28, 29`, `A..Z = 30..55`, punctuation and
editing keys `56..68`, `LeftShift, RightShift = 69, 70`,
`LeftCtrl = 71`, `RightCtrl = 72`). -/
def RightCtrl : KeyCode := (72 : Nat)

/-- Go `KeyPress` struct. -/
structure KeyPress where
  key : KeyCode
  action : KeyAction
deriving DecidableEq, Repr

/-- The Go input events are `any` values drawn from exactly the four structs
`MouseMove`, `MouseClick`, `MouseScroll` and `KeyPress`; `DX`/`DY` are
`int16`, `Count` is `uint8`. -/
inductive InputEvent
  | mouseMove (dx dy : Int)
  | mouseClick (button : MouseButton) (action : MouseButtonAction)
  | mouseScroll (direction : MouseScrollDirection) (count : Nat)
  | keyPress (k : KeyPress)
deriving DecidableEq, Repr

/-- Go `transport.TagFor`: the wire tag of each event variant (total on the
four variants; the `any`-typed fallthrough error case is unreachable for
them). -/
def TagFor : InputEvent → Nat
  | .mouseMove _ _ => TagMouseMove
  | .mouseClick _ _ => TagMouseClick
  | .mouseScroll _ _ => TagMouseScroll
  | .keyPress _ => TagKeyPress

/-! ## Normalizer (src/go/inputevent/inputevent.go, `Normalizer.Normalize`)

The Go normalizer holds one `prev any` slot (initially `nil`, modeled as
`none`).  `Normalize` returns the rewritten event and - crucially - leaves
`n.prev` untouched on the branch that emits `Repeat` (on every other branch
it stores the incoming event). -/

/-- One step of `(*Normalizer).Normalize`: given the `prev` slot and the
incoming event, returns the new slot and the emitted event. -/
def normalize : Option InputEvent → InputEvent → Option InputEvent × InputEvent
  | st@(some (.keyPress ⟨k, .down⟩)), e =>
    match e with
    | .keyPress ⟨k2, .down⟩ =>
      if k2 = k then (st, .keyPress ⟨k2, .rep⟩) else (some e, e)
    | _ => (some e, e)
  | _, e => (some e, e)

/-- Feeding a sequence of events through one `Normalizer`, starting from the
slot `st`. -/
def normalizeSeq (st : Option InputEvent) : List InputEvent → List InputEvent
  | [] => []
  | e :: rest =>
    let p := normalize st e
    p.2 :: normalizeSeq p.1 rest

/-- A fresh `Normalizer\x7b\x7d` applied to a whole event sequence. -/
def normalizeAll (events : List InputEvent) : List InputEvent :=
  normalizeSeq none events

/-- Whether an event is `KeyPress\x7bkey: K, action: Down\x7d`. -/
def isDown (K : KeyCode) : InputEvent → Bool
  | .keyPress ⟨k, .down⟩ => k = K
  | _ => false

/-- Modelled from the spec's words (the normalizer law): replace every
maximal run of `n ≥ 2` consecutive `Down(K)` events of one key `K` by one
`Down(K)` followed by `n - 1` `Repeat(K)`; any other event is kept and splits
runs. -/
def collapseRuns : List InputEvent → List InputEvent
  | [] => []
  | e :: rest =>
    match e with
    | .keyPress ⟨k, .down⟩ =>
      let n := (rest.takeWhile (isDown k)).length
      .keyPress ⟨k, .down⟩ ::
        (List.replicate n (.keyPress ⟨k, .rep⟩) ++ collapseRuns (rest.drop n))
    | _ => e :: collapseRuns rest
termination_by l => l.length
decreasing_by
  · simp only [List.length_cons, List.length_drop]
    omega
  · simp only [List.length_cons]
    omega

/-! Proof that the normalizer implements the run-collapsing law.  The key
observation is that after every `Normalize` call the `prev` slot equals the
event that was just fed in (on the `Repeat` branch the slot is left holding
the previous `Down(K)`, which is the same value as the incoming event), so
the output depends only on the current and the immediately preceding input
event. -/

/-- The output of one normalizer step as a function of the previous input. -/
def pairOut (p : Option InputEvent) (e : InputEvent) : InputEvent :=
  match p, e with
  | some (.keyPress ⟨k, .down⟩), .keyPress ⟨k2, .down⟩ =>
    if k2 = k then .keyPress ⟨k2, .rep⟩ else e
  | _, _ => e

theorem normalize_eq (st : Option InputEvent) (e : InputEvent) :
    normalize st e = (some e, pairOut st e) := by
  match st, e with
  | none, e => cases e <;> rfl
  | some (.mouseMove _ _), e => cases e <;> rfl
  | some (.mouseClick _ _), e => cases e <;> rfl
  | some (.mouseScroll _ _), e => cases e <;> rfl
  | some (.keyPress ⟨k, .rep⟩), e => cases e <;> rfl
  | some (.keyPress ⟨k, .up⟩), e => cases e <;> rfl
  | some (.keyPress ⟨k, .down⟩), .mouseMove _ _ => rfl
  | some (.keyPress ⟨k, .down⟩), .mouseClick _ _ => rfl
  | some (.keyPress ⟨k, .down⟩), .mouseScroll _ _ => rfl
  | some (.keyPress ⟨k, .down⟩), .keyPress ⟨k2, .rep⟩ => rfl
  | some (.keyPress ⟨k, .down⟩), .keyPress ⟨k2, .up⟩ => rfl
  | some (.keyPress ⟨k, .down⟩), .keyPress ⟨k2, .down⟩ =>
    by_cases h : k2 = k
    · subst h
      simp [normalize, pairOut]
    · simp [normalize, pairOut, h]

/-- Lemma form: `normalizeSeq` rewritten with `pairOut`: each output is a function of
the current event and its predecessor in the input. -/
def pairMap (p : Option InputEvent) : List InputEvent → List InputEvent
  | [] => []
  | e :: rest => pairOut p e :: pairMap (some e) rest

theorem normalizeSeq_eq_pairMap (l : List InputEvent) :
    ∀ st, normalizeSeq st l = pairMap st l := by
  induction l with
  | nil => intro st; rfl
  | cons e rest ih =>
    intro st
    simp only [normalizeSeq, pairMap, normalize_eq st e]
    exact congrArg _ (ih (some e))

theorem pairOut_of_not_down (p : Option InputEvent) (e : InputEvent)
    (h : ∀ k, p ≠ some (.keyPress ⟨k, .down⟩)) : pairOut p e = e := by
  match p, e with
  | none, e => cases e <;> rfl
  | some (.mouseMove _ _), e => cases e <;> rfl
  | some (.mouseClick _ _), e => cases e <;> rfl
  | some (.mouseScroll _ _), e => cases e <;> rfl
  | some (.keyPress ⟨k, .rep⟩), e => cases e <;> rfl
  | some (.keyPress ⟨k, .up⟩), e => cases e <;> rfl
  | some (.keyPress ⟨k, .down⟩), e => exact absurd rfl (h k)

theorem pairOut_down_of_not_isDown (k : KeyCode) (e : InputEvent)
    (h : isDown k e = false) : pairOut (some (.keyPress ⟨k, .down⟩)) e = e := by
  match e with
  | .mouseMove _ _ => rfl
  | .mouseClick _ _ => rfl
  | .mouseScroll _ _ => rfl
  | .keyPress ⟨k2, .rep⟩ => rfl
  | .keyPress ⟨k2, .up⟩ => rfl
  | .keyPress ⟨k2, .down⟩ =>
    have hk : ¬ k2 = k := by
      intro hkk
      simp [isDown, hkk] at h
    simp [pairOut, hk]

theorem pairOut_down_isDown (k : KeyCode) (e : InputEvent)
    (h : isDown k e = true) :
    e = .keyPress ⟨k, .down⟩ ∧
      pairOut (some (.keyPress ⟨k, .down⟩)) e = .keyPress ⟨k, .rep⟩ := by
  match e with
  | .mouseMove _ _ => simp [isDown] at h
  | .mouseClick _ _ => simp [isDown] at h
  | .mouseScroll _ _ => simp [isDown] at h
  | .keyPress ⟨k2, .rep⟩ => simp [isDown] at h
  | .keyPress ⟨k2, .up⟩ => simp [isDown] at h
  | .keyPress ⟨k2, .down⟩ =>
    have hk : k2 = k := by simpa [isDown] using h
    subst hk
    exact ⟨rfl, by simp [pairOut]⟩

theorem collapseRuns_nil : collapseRuns [] = [] := by
  rw [collapseRuns]

theorem collapseRuns_cons_down (k : KeyCode) (rest : List InputEvent) :
    collapseRuns (.keyPress ⟨k, .down⟩ :: rest) =
      .keyPress ⟨k, .down⟩ ::
        (List.replicate (rest.takeWhile (isDown k)).length
            (.keyPress ⟨k, .rep⟩) ++
          collapseRuns (rest.drop (rest.takeWhile (isDown k)).length)) := by
  rw [collapseRuns]

theorem collapseRuns_cons_other (e : InputEvent) (rest : List InputEvent)
    (h : ∀ k, e ≠ .keyPress ⟨k, .down⟩) :
    collapseRuns (e :: rest) = e :: collapseRuns rest := by
  match e with
  | .mouseMove _ _ => rw [collapseRuns]; intro k2 hk; simp at hk
  | .mouseClick _ _ => rw [collapseRuns]; intro k2 hk; simp at hk
  | .mouseScroll _ _ => rw [collapseRuns]; intro k2 hk; simp at hk
  | .keyPress ⟨k, .rep⟩ => rw [collapseRuns]; intro k2 hk; simp at hk
  | .keyPress ⟨k, .up⟩ => rw [collapseRuns]; intro k2 hk; simp at hk
  | .keyPress ⟨k, .down⟩ => exact absurd rfl (h k)

/-- A context `p` is compatible with a list when it does not rewrite the
head of the list (it is not a `Down` of the head's key). -/
def Compat (p : Option InputEvent) : List InputEvent → Prop
  | [] => True
  | e :: _ => pairOut p e = e

theorem pairMap_eq_collapseRuns :
    ∀ (n : Nat) (l : List InputEvent), l.length ≤ n →
      ∀ p, Compat p l → pairMap p l = collapseRuns l := by
  intro n
  induction n with
  | zero =>
    intro l hl p _
    have : l = [] := List.length_eq_zero.mp (Nat.le_zero.mp hl)
    subst this
    rw [collapseRuns_nil]
    rfl
  | succ n ih =>
    intro l hl p hcompat
    match l with
    | [] =>
      rw [collapseRuns_nil]
      rfl
    | e :: rest =>
      have hrest : rest.length ≤ n := by
        simp only [List.length_cons] at hl
        omega
      have hhead : pairOut p e = e := hcompat
      have hother : (∀ k, e ≠ .keyPress ⟨k, .down⟩) →
          pairMap p (e :: rest) = collapseRuns (e :: rest) := by
        intro hne
        rw [collapseRuns_cons_other e rest hne]
        simp only [pairMap, hhead]
        refine congrArg _ (ih rest hrest _ ?_)
        match rest with
        | [] => trivial
        | x :: _ =>
          exact pairOut_of_not_down _ x (by
            intro k h
            exact hne k (Option.some.inj h))
      match he : e with
      | .keyPress ⟨k, .down⟩ =>
        -- a (possibly singleton) run of Down(k) starts here
        have run : ∀ (r : List InputEvent), r.length ≤ n →
            pairMap (some (.keyPress ⟨k, .down⟩)) r =
              List.replicate (r.takeWhile (isDown k)).length
                  (.keyPress ⟨k, .rep⟩) ++
                collapseRuns (r.drop (r.takeWhile (isDown k)).length) := by
          intro r
          induction r with
          | nil =>
            intro _
            simp [pairMap, collapseRuns_nil]
          | cons e' r' ihr =>
            intro hr
            have hr' : r'.length ≤ n := by
              simp only [List.length_cons] at hr
              omega
            by_cases hd : isDown k e' = true
            · obtain ⟨he', hout⟩ := pairOut_down_isDown k e' hd
              simp only [pairMap, hout, List.takeWhile_cons, hd, if_true,
                List.length_cons, List.replicate_succ, List.cons_append,
                List.drop_succ_cons]
              subst he'
              exact congrArg _ (ihr hr')
            · have hd' : isDown k e' = false := by
                cases hx : isDown k e'
                · rfl
                · exact absurd hx hd
              have htw : (e' :: r').takeWhile (isDown k) = [] := by
                simp [List.takeWhile_cons, hd']
              rw [htw]
              simp only [List.length_nil, List.replicate_zero,
                List.nil_append, List.drop_zero]
              exact ih (e' :: r') hr (some (.keyPress ⟨k, .down⟩))
                (pairOut_down_of_not_isDown k e' hd')
        rw [collapseRuns_cons_down k rest]
        simp only [pairMap, hhead]
        exact congrArg _ (run rest hrest)
      | .mouseMove dx dy => exact hother (by intro k h; cases h)
      | .mouseClick b a => exact hother (by intro k h; cases h)
      | .mouseScroll d c => exact hother (by intro k h; cases h)
      | .keyPress ⟨k, .rep⟩ => exact hother (by intro k h; cases h)
      | .keyPress ⟨k, .up⟩ => exact hother (by intro k h; cases h)

/-! ## Toggle detector (src/go/terong/server/server.go, `keyBuffer`)

Timestamps are modeled as naturals (milliseconds; Go's zero `time.Time` is
`0`, and `t1.Before(t2)` is `t1 < t2`).  `toggleKeyStrokeExists` walks the
buffer from the newest entry to the oldest; the embedding runs the same walk
on the reversed buffer list. -/

/-- Go `keyBufferEntry`: a key event plus the time it was pushed. -/
structure keyBufferEntry where
  k : KeyPress
  t : Nat
deriving DecidableEq, Repr

/-- The body of the `switch` in `toggleKeyStrokeExists`: Go's `fallthrough`
from the `c == 1 && Up` case into the `c odd && Up` case makes that first
case record the time and also increment `c`. -/
def toggleStep (c t : Nat) (e : keyBufferEntry) : Nat × Nat :=
  if c = 1 ∧ e.k.action = .up then (c + 1, e.t)
  else if c % 2 ≠ 0 ∧ e.k.action = .up then (c + 1, t)
  else if c % 2 = 0 ∧ e.k.action = .down then (c + 1, t)
  else (c, t)

/-- The `for i := len(b.buf) - 1; i >= 0; i--` walk of
`toggleKeyStrokeExists`, taking the entries newest-first: skip
non-right-control entries, abort on an entry older than `after`
(`event.t.Before(after)`), otherwise update `(c, t)` and return
`(true, t)` as soon as `c / 2 == 2`. -/
def toggleLoop (after : Nat) : List keyBufferEntry → Nat → Nat → Bool × Nat
  | [], _, _ => (false, 0)
  | e :: rest, c, t =>
    if e.k.key ≠ RightCtrl then
      toggleLoop after rest c t
    else if e.t < after then
      (false, 0)
    else if (toggleStep c t e).1 / 2 = 2 then
      (true, (toggleStep c t e).2)
    else
      toggleLoop after rest (toggleStep c t e).1 (toggleStep c t e).2

/-- Go `(*keyBuffer).toggleKeyStrokeExists`: `c` starts at `1`, `t` at the
zero time, and the walk runs newest-to-oldest (hence `reverse`). -/
def toggleKeyStrokeExists (b : List keyBufferEntry) (after : Nat) : Bool × Nat :=
  toggleLoop after b.reverse 1 0

/-- A right-control entry with the given action that the walk did not reject
as stale (`¬ e.t < after`, i.e. not strictly before `after`). -/
def rcEntry (a : KeyAction) (after : Nat) (e : keyBufferEntry) : Prop :=
  e.k.key = RightCtrl ∧ e.k.action = a ∧ ¬ e.t < after

/-- Soundness of the walk: whenever it reports a toggle it has matched, in
newest-to-oldest order, an `Up`, a `Down` and an `Up` right-control entry
(three entries complete the count from `c = 1` to `c = 4`), all of them not
strictly before `after`, and it returns the newest matched `Up`'s time. -/
theorem toggleLoop_sound (after : Nat) :
    ∀ (l : List keyBufferEntry) (c t r : Nat),
      toggleLoop after l c t = (true, r) →
      (c = 1 → ∃ a b d, [a, b, d].Sublist l ∧ rcEntry .up after a ∧
        rcEntry .down after b ∧ rcEntry .up after d ∧ r = a.t) ∧
      (c = 2 → ∃ b d, [b, d].Sublist l ∧ rcEntry .down after b ∧
        rcEntry .up after d ∧ r = t) ∧
      (c = 3 → ∃ d, [d].Sublist l ∧ rcEntry .up after d ∧ r = t) := by
  intro l
  induction l with
  | nil =>
    intro c t r h
    simp [toggleLoop] at h
  | cons e rest ih =>
    intro c t r h
    rw [toggleLoop] at h
    by_cases hkey : e.k.key = RightCtrl
    · rw [if_neg (not_not_intro hkey)] at h
      by_cases hfr : e.t < after
      · rw [if_pos hfr] at h
        simp at h
      · rw [if_neg hfr] at h
        refine ⟨fun hc => ?_, fun hc => ?_, fun hc => ?_⟩ <;> subst hc
        · -- c = 1: the first matched entry must be an Up
          cases ha : e.k.action with
          | up =>
            rw [show toggleStep 1 t e = (2, e.t) from by
              simp [toggleStep, ha]] at h
            simp only [show (2 : Nat) / 2 = 2 ↔ False from by decide,
              if_false] at h
            obtain ⟨b, d, hs, hb, hd, hr⟩ := (ih 2 e.t r h).2.1 rfl
            exact ⟨e, b, d, hs.cons₂ e, ⟨hkey, ha, hfr⟩, hb, hd, hr⟩
          | down =>
            rw [show toggleStep 1 t e = (1, t) from by
              simp [toggleStep, ha]] at h
            simp only [show (1 : Nat) / 2 = 2 ↔ False from by decide,
              if_false] at h
            obtain ⟨a, b, d, hs, hha, hb, hd, hr⟩ := (ih 1 t r h).1 rfl
            exact ⟨a, b, d, hs.cons e, hha, hb, hd, hr⟩
          | rep =>
            rw [show toggleStep 1 t e = (1, t) from by
              simp [toggleStep, ha]] at h
            simp only [show (1 : Nat) / 2 = 2 ↔ False from by decide,
              if_false] at h
            obtain ⟨a, b, d, hs, hha, hb, hd, hr⟩ := (ih 1 t r h).1 rfl
            exact ⟨a, b, d, hs.cons e, hha, hb, hd, hr⟩
        · -- c = 2: the next matched entry must be a Down
          cases ha : e.k.action with
          | down =>
            rw [show toggleStep 2 t e = (3, t) from by
              simp [toggleStep, ha]] at h
            simp only [show (3 : Nat) / 2 = 2 ↔ False from by decide,
              if_false] at h
            obtain ⟨d, hs, hd, hr⟩ := (ih 3 t r h).2.2 rfl
            exact ⟨e, d, hs.cons₂ e, ⟨hkey, ha, hfr⟩, hd, hr⟩
          | up =>
            rw [show toggleStep 2 t e = (2, t) from by
              simp [toggleStep, ha]] at h
            simp only [show (2 : Nat) / 2 = 2 ↔ False from by decide,
              if_false] at h
            obtain ⟨b, d, hs, hb, hd, hr⟩ := (ih 2 t r h).2.1 rfl
            exact ⟨b, d, hs.cons e, hb, hd, hr⟩
          | rep =>
            rw [show toggleStep 2 t e = (2, t) from by
              simp [toggleStep, ha]] at h
            simp only [show (2 : Nat) / 2 = 2 ↔ False from by decide,
              if_false] at h
            obtain ⟨b, d, hs, hb, hd, hr⟩ := (ih 2 t r h).2.1 rfl
            exact ⟨b, d, hs.cons e, hb, hd, hr⟩
        · -- c = 3: an Up completes the count, `c` reaches 4
          cases ha : e.k.action with
          | up =>
            rw [show toggleStep 3 t e = (4, t) from by
              simp [toggleStep, ha]] at h
            simp only [show (4 : Nat) / 2 = 2 from by decide, if_true] at h
            obtain ⟨-, hr⟩ := Prod.mk.injEq .. ▸ h
            exact ⟨e, (List.nil_sublist rest).cons₂ e, ⟨hkey, ha, hfr⟩,
              hr.symm⟩
          | down =>
            rw [show toggleStep 3 t e = (3, t) from by
              simp [toggleStep, ha]] at h
            simp only [show (3 : Nat) / 2 = 2 ↔ False from by decide,
              if_false] at h
            obtain ⟨d, hs, hd, hr⟩ := (ih 3 t r h).2.2 rfl
            exact ⟨d, hs.cons e, hd, hr⟩
          | rep =>
            rw [show toggleStep 3 t e = (3, t) from by
              simp [toggleStep, ha]] at h
            simp only [show (3 : Nat) / 2 = 2 ↔ False from by decide,
              if_false] at h
            obtain ⟨d, hs, hd, hr⟩ := (ih 3 t r h).2.2 rfl
            exact ⟨d, hs.cons e, hd, hr⟩
    · rw [if_pos hkey] at h
      obtain ⟨h1, h2, h3⟩ := ih c t r h
      refine ⟨fun hc => ?_, fun hc => ?_, fun hc => ?_⟩
      · obtain ⟨a, b, d, hs, hha, hb, hd, hr⟩ := h1 hc
        exact ⟨a, b, d, hs.cons e, hha, hb, hd, hr⟩
      · obtain ⟨b, d, hs, hb, hd, hr⟩ := h2 hc
        exact ⟨b, d, hs.cons e, hb, hd, hr⟩
      · obtain ⟨d, hs, hd, hr⟩ := h3 hc
        exact ⟨d, hs.cons e, hd, hr⟩

/-! ## Transport server accept loop (terong/transport/server, `run`)

The `run` loop owns a single session variable.  Its `select` reacts to a
newly accepted connection, an input to relay, or the end of the running
session.  Connections are identified by an abstract id. -/

/-- The piece of session state the accept loop reads and writes: which
connection the session wraps and the `closed` flag (`emptySession()` starts
closed; `newSession(conn)` starts open). -/
structure Sess where
  conn : Nat
  closed : Bool
deriving DecidableEq, Repr

/-- Go `emptySession()` wraps `transport.EmptySession()`, which is
`&Session\x7bclosed: true\x7d`. -/
def emptySession : Sess := ⟨0, true⟩

/-- Go `newSession(ctx, conn)`: a fresh open session over `conn`. -/
def newSession (conn : Nat) : Sess := ⟨conn, false⟩

/-- The events the `select` in `run` can wake up on. -/
inductive ServerEvent
  | connAccepted (conn : Nat)
  | inputArrived (e : InputEvent)
  | sessionDone
deriving DecidableEq, Repr

/-- The externally visible effects of one loop iteration. -/
inductive ServerAction
  | closeConn (conn : Nat)
  | startSession (conn : Nat)
  | offerInput (e : InputEvent)
deriving DecidableEq, Repr

/-- One iteration of the `for/select` in `run`: a connection accepted while
`!sess.Closed()` is closed and the loop continues; otherwise it becomes the
new session and `runSession` is started.  An input is offered to the session
channel without blocking, and a session error closes the session. -/
def serverStep (sess : Sess) : ServerEvent → Sess × List ServerAction
  | .connAccepted conn =>
    if sess.closed = false then
      (sess, [.closeConn conn])
    else
      (newSession conn, [.startSession conn])
  | .inputArrived e => (sess, [.offerInput e])
  | .sessionDone => ({ sess with closed := true }, [])

/-! ## Transport client frame dispatch (transport/client, `runSession`)

`runSession`'s inbox case switches on the received frame's tag: tags 1-4
fall through to `unmarshalEvent` and deliver the event, tag 5 resets the
receive-ping deadline, and the `default` arm logs "unexpected tag" and
loops.  Termination of the session only happens on the other `select` arms
(context, ping deadlines, closed inbox), never on a frame's tag. -/

/-- How `runSession` disposes of one received frame, by tag. -/
inductive FrameHandling
  | deliverEvent (tag : Nat)
  | resetRecvPingDeadline
  | warnContinue
  | terminate
deriving DecidableEq, Repr

/-- The `switch frm.Tag` in the client's `runSession`. -/
def handleFrameTag (tag : Nat) : FrameHandling :=
  if tag = TagMouseMove ∨ tag = TagMouseClick ∨ tag = TagMouseScroll ∨
      tag = TagKeyPress then
    .deliverEvent tag
  else if tag = TagPing then
    .resetRecvPingDeadline
  else
    .warnContinue

/-! ## Input source capture transitions (inputsource, message pump)

The `MESSAGE_CODE_SET_CAPTURE_INPUTS` arm of the pump loop: it stores the
flag, calls `set_eat_input`, and on `TRUE` saves the current cursor position
via `GetCursorPos`; on `FALSE` it calls `SetCursorPos` with the saved
position if one exists.  It never sets `handle.cursorPos` back to `nil`. -/

/-- A cursor position (`C.POINT`). -/
structure Point where
  x : Int
  y : Int
deriving DecidableEq, Repr

/-- The pump state touched by the capture-control message:
`handle.captureInputs` and `handle.cursorPos` (`nil` initially). -/
structure SourceState where
  captureInputs : Bool
  cursorPos : Option Point
deriving DecidableEq, Repr

/-- OS calls the handler issues, in order. -/
inductive OsCall
  | setEatInput (flag : Bool)
  | getCursorPos
  | setCursorPos (p : Point)
deriving DecidableEq, Repr

/-- The `MESSAGE_CODE_SET_CAPTURE_INPUTS` handler.  `osCursor` is the
position `GetCursorPos` reports (the success path; an OS failure terminates
the source and is out of scope here). -/
def handleSetCaptureInputs (st : SourceState) (flag : Bool) (osCursor : Point) :
    SourceState × List OsCall :=
  let st1 : SourceState := { st with captureInputs := flag }
  if flag then
    ({ st1 with cursorPos := some osCursor }, [.setEatInput flag, .getCursorPos])
  else
    match st1.cursorPos with
    | some p => (st1, [.setEatInput flag, .setCursorPos p])
    | none => (st1, [.setEatInput flag])

/-! ## Event frame construction (terong/transport/server, `writeInput`) -/

/-- Go `(*session).writeInput` after `cbor.Marshal` succeeded: the
value-length guard and the frame construction.  `value` stands for the CBOR
bytes of the event; `none` is exactly the
"length is larger than maximum value length" error return. -/
def writeInput (e : InputEvent) (value : List Nat) : Option Frame :=
  if ValueMaxLength < value.length then
    none
  else
    some ⟨TagFor e, value.length, value⟩

/-! ## Claim theorems -/

/-- C1, as stated, is false on the code: with `last_toggle_at = 10` and a
buffer holding only the three right-control events `Up@10, Down@20, Up@30`,
`toggleKeyStrokeExists` reports a toggle (returning the newest Up's time 30)
although the buffer contains no chronological `Down, Up, Down, Up` sequence
of four right-control events with all timestamps strictly after 10 - indeed
no four strictly increasing positions at all. -/
theorem C1_counterexample :
    toggleKeyStrokeExists
        [⟨⟨RightCtrl, .up⟩, 10⟩, ⟨⟨RightCtrl, .down⟩, 20⟩,
         ⟨⟨RightCtrl, .up⟩, 30⟩] 10 = (true, 30) ∧
      ¬ ∃ i1 i2 i3 i4 :
          Fin ([⟨⟨RightCtrl, .up⟩, 10⟩, ⟨⟨RightCtrl, .down⟩, 20⟩,
                (⟨⟨RightCtrl, .up⟩, 30⟩ : keyBufferEntry)] :
              List keyBufferEntry).length,
        i1 < i2 ∧ i2 < i3 ∧ i3 < i4 := by
  decide

/-- C1 (amended): `toggleKeyStrokeExists(T)` reports a toggle only if the
buffer contains, in chronological order, three right-control events
`Up, Down, Up` (the walk counts `c` from 1 to 4 over three matched entries),
none of which has a timestamp strictly before `T` (an event at exactly `T`
may participate), and the reported time is that of the newest matched `Up`.
The 300 ms window is not checked here; it is enforced by the pruning in
`push`. -/
theorem C1_toggle_only_if (b : List keyBufferEntry) (after r : Nat)
    (h : toggleKeyStrokeExists b after = (true, r)) :
    ∃ e1 e2 e3 : keyBufferEntry, [e1, e2, e3].Sublist b ∧
      e1.k.key = RightCtrl ∧ e1.k.action = .up ∧
      e2.k.key = RightCtrl ∧ e2.k.action = .down ∧
      e3.k.key = RightCtrl ∧ e3.k.action = .up ∧
      ¬ e1.t < after ∧ ¬ e2.t < after ∧ ¬ e3.t < after ∧ r = e3.t := by
  obtain ⟨a, bb, d, hsub, ⟨ha1, ha2, ha3⟩, ⟨hb1, hb2, hb3⟩, ⟨hd1, hd2, hd3⟩,
    hr⟩ := (toggleLoop_sound after b.reverse 1 0 r h).1 rfl
  refine ⟨d, bb, a, ?_, hd1, hd2, hb1, hb2, ha1, ha2, hd3, hb3, ha3, hr⟩
  have hrev := hsub.reverse
  simpa using hrev

/-- Witness for C1 (amended) at the buffer `Up@10, Down@20, Up@30` with
`T = 0`. -/
theorem C1_toggle_only_if_witness :
    ∃ e1 e2 e3 : keyBufferEntry,
      [e1, e2, e3].Sublist
          [⟨⟨RightCtrl, .up⟩, 10⟩, ⟨⟨RightCtrl, .down⟩, 20⟩,
           ⟨⟨RightCtrl, .up⟩, 30⟩] ∧
        e1.k.key = RightCtrl ∧ e1.k.action = .up ∧
        e2.k.key = RightCtrl ∧ e2.k.action = .down ∧
        e3.k.key = RightCtrl ∧ e3.k.action = .up ∧
        ¬ e1.t < 0 ∧ ¬ e2.t < 0 ∧ ¬ e3.t < 0 ∧ 30 = e3.t :=
  C1_toggle_only_if
    [⟨⟨RightCtrl, .up⟩, 10⟩, ⟨⟨RightCtrl, .down⟩, 20⟩,
     ⟨⟨RightCtrl, .up⟩, 30⟩] 0 30 (by decide)

/-- C2: for every frame whose `Length` field equals its value's byte count
and is at most 1020 (and whose tag fits `uint16`, as Go's `Tag` type
guarantees), `ReadFrame` on the bytes `WriteFrame` produced returns exactly
that frame - same tag, length and value bytes, both header fields
big-endian - with no error and the whole encoding consumed. -/
theorem C2_frame_roundtrip (f : Frame) (htag : f.tag < 65536)
    (hlen : f.length = f.value.length) (hceil : f.length ≤ ValueMaxLength) :
    ReadFrame (WriteFrame f) = some (f, false, []) := by
  obtain ⟨tag, length, value⟩ := f
  simp only at htag hlen hceil
  subst hlen
  have hL : value.length < 65536 := by
    have : ValueMaxLength = 1020 := rfl
    omega
  have h := readFrame_concat tag value.length value [] htag hL rfl
  rw [List.append_nil] at h
  have hfl : decide (ValueMaxLength < value.length) = false :=
    decide_eq_false (Nat.not_lt.mpr hceil)
  rw [hfl] at h
  simpa [WriteFrame, List.take_length] using h

/-- Witness for C2 at the frame `tag 4, length 2, value [7, 9]`. -/
theorem C2_frame_roundtrip_witness :
    ReadFrame (WriteFrame ⟨4, 2, [7, 9]⟩) = some (⟨4, 2, [7, 9]⟩, false, []) :=
  C2_frame_roundtrip ⟨4, 2, [7, 9]⟩ (by decide) (by decide) (by decide)

/-- C3: constructing an event frame in `writeInput` fails exactly when the
marshalled value exceeds 1020 bytes; and `ReadFrame` on a frame whose length
header is 1024 (the claim's example) parses it and reports
`ErrMaxLengthExceeded` (the `true` flag). -/
theorem C3_value_ceiling :
    (∀ (e : InputEvent) (value : List Nat),
        writeInput e value = none ↔ ValueMaxLength < value.length) ∧
      ReadFrame (writeUint16 TagMouseMove ++ writeUint16 1024 ++
          List.replicate 1024 0) =
        some (⟨TagMouseMove, 1024, List.replicate 1024 0⟩, true, []) := by
  constructor
  · intro e value
    by_cases h : ValueMaxLength < value.length
    · simp [writeInput, h]
    · simp [writeInput, h]
  · have h := readFrame_concat TagMouseMove 1024 (List.replicate 1024 0) []
      (by decide) (by decide) (List.length_replicate _ _)
    rw [List.append_nil] at h
    rw [h]
    rfl

/-- Witness for C3 at a 1021-byte value: in that instance frame
construction indeed fails. -/
theorem C3_value_ceiling_witness :
    writeInput (.mouseMove 1 2) (List.replicate 1021 0) = none ↔
      ValueMaxLength < (List.replicate 1021 0).length :=
  C3_value_ceiling.1 (.mouseMove 1 2) (List.replicate 1021 0)

/-- C4: feeding any event sequence through `Normalizer.Normalize` one event
at a time equals replacing every maximal run of `n ≥ 2` consecutive
`KeyPress\x7bK, Down\x7d` events of one key by one `Down` and `n - 1`
`Repeat`s, leaving every other event unchanged; events of another kind or
key split runs.  `collapseRuns` is the run-replacement transform written
from the spec's words. -/
theorem C4_normalizer_law (events : List InputEvent) :
    normalizeAll events = collapseRuns events := by
  rw [normalizeAll, normalizeSeq_eq_pairMap]
  refine pairMap_eq_collapseRuns events.length events le_rfl none ?_
  match events with
  | [] => trivial
  | e :: _ => exact pairOut_of_not_down none e (by intro k hk; cases hk)

/-- C5: evaluation at the failing input.  With `last_toggle_at = 140` and
the buffer `Up@140, Down@150, Up@160`, the code reports a toggle at 160 -
the entry at exactly 140 (≤ T) participates because the code tests
`event.t.Before(after)`, i.e. strict `<` - whereas on the buffer with all
entries of timestamp ≤ 140 removed it reports none.  The claim (and the
spec's `e.at <= last_toggle_at` pseudocode) requires both results to
agree. -/
theorem C5_boundary_event_reused :
    toggleKeyStrokeExists
        [⟨⟨RightCtrl, .up⟩, 140⟩, ⟨⟨RightCtrl, .down⟩, 150⟩,
         ⟨⟨RightCtrl, .up⟩, 160⟩] 140 = (true, 160) ∧
      toggleKeyStrokeExists
        (([⟨⟨RightCtrl, .up⟩, 140⟩, ⟨⟨RightCtrl, .down⟩, 150⟩,
           ⟨⟨RightCtrl, .up⟩, 160⟩] : List keyBufferEntry).filter
          (fun e => decide (140 < e.t))) 140 = (false, 0) := by
  decide

/-- C6: while the current session is not closed, one iteration of the
server's accept case closes the newly accepted connection and leaves the
session value (all its fields) unchanged. -/
theorem C6_single_session (sess : Sess) (conn : Nat)
    (h : sess.closed = false) :
    serverStep sess (.connAccepted conn) = (sess, [.closeConn conn]) := by
  simp [serverStep, h]

/-- Witness for C6: an open session over connection 7 rejects connection 9. -/
theorem C6_single_session_witness :
    serverStep ⟨7, false⟩ (.connAccepted 9) = (⟨7, false⟩, [.closeConn 9]) :=
  C6_single_session ⟨7, false⟩ 9 rfl

/-- C7, as stated, is false on the code: a frame with tag 6 (none of 1-5)
hits the `default` arm of the client `runSession` switch, which logs
"unexpected tag" and keeps the session running - it does not terminate. -/
theorem C7_counterexample :
    handleFrameTag 6 = .warnContinue ∧
      handleFrameTag 6 ≠ FrameHandling.terminate := by
  decide

/-- C7 (amended): every received frame is dispatched by tag to exactly one
variant - tags 1-4 decode to the corresponding event variant, tag 5 is a
ping - but a frame with any other tag is logged as a warning while the
session continues; no tag value terminates the session. -/
theorem C7_tag_dispatch (tag : Nat) :
    handleFrameTag tag ≠ FrameHandling.terminate ∧
      (handleFrameTag tag = .deliverEvent tag ↔
        tag = TagMouseMove ∨ tag = TagMouseClick ∨ tag = TagMouseScroll ∨
          tag = TagKeyPress) ∧
      (handleFrameTag tag = .resetRecvPingDeadline ↔ tag = TagPing) ∧
      (handleFrameTag tag = .warnContinue ↔
        ¬ (tag = 1 ∨ tag = 2 ∨ tag = 3 ∨ tag = 4 ∨ tag = 5)) := by
  rcases Nat.lt_or_ge tag 6 with h | h
  · interval_cases tag <;> decide
  · have h14 : ¬ (tag = TagMouseMove ∨ tag = TagMouseClick ∨
        tag = TagMouseScroll ∨ tag = TagKeyPress) := by
      simp only [TagMouseMove, TagMouseClick, TagMouseScroll, TagKeyPress]
      omega
    have h5 : ¬ tag = TagPing := by
      simp only [TagPing]
      omega
    rw [handleFrameTag, if_neg h14, if_neg h5]
    refine ⟨by simp, by simp [h14], by simp [h5], by simp; omega⟩

/-- Witness for C7 (amended) at tag 6: not a termination, a logged
warning. -/
theorem C7_tag_dispatch_witness :
    handleFrameTag 6 ≠ FrameHandling.terminate ∧
      (handleFrameTag 6 = .warnContinue ↔
        ¬ (6 = 1 ∨ 6 = 2 ∨ 6 = 3 ∨ 6 = 4 ∨ 6 = 5)) :=
  ⟨(C7_tag_dispatch 6).1, (C7_tag_dispatch 6).2.2.2⟩

/-- C8: the wire tags are `MouseMove = 1`, `MouseClick = 2`,
`MouseScroll = 3`, `KeyPress = 4`, `Ping = 5`, and writing the ping frame
(tag `Ping`, length 0, empty value) emits exactly the bytes
`00 05 00 00`. -/
theorem C8_wire_tags :
    TagMouseMove = 1 ∧ TagMouseClick = 2 ∧ TagMouseScroll = 3 ∧
      TagKeyPress = 4 ∧ TagPing = 5 ∧ WritePing = [0, 5, 0, 0] := by
  decide

/-- C9, as stated, is false on the code: starting from
`\x7bcapturing: false, saved_cursor: none\x7d`, entering capture (saving
cursor (3, 4)) and then leaving capture restores the cursor but leaves the
saved position set, so `saved_cursor.is_some() ⇔ capturing` fails in the
resulting state. -/
theorem C9_counterexample :
    (((handleSetCaptureInputs
          ((handleSetCaptureInputs ⟨false, none⟩ true ⟨3, 4⟩).1)
          false ⟨9, 9⟩).1).captureInputs = false) ∧
      (((handleSetCaptureInputs
          ((handleSetCaptureInputs ⟨false, none⟩ true ⟨3, 4⟩).1)
          false ⟨9, 9⟩).1).cursorPos = some ⟨3, 4⟩) ∧
      ¬ ((((handleSetCaptureInputs
            ((handleSetCaptureInputs ⟨false, none⟩ true ⟨3, 4⟩).1)
            false ⟨9, 9⟩).1).cursorPos.isSome = true) ↔
         (((handleSetCaptureInputs
            ((handleSetCaptureInputs ⟨false, none⟩ true ⟨3, 4⟩).1)
            false ⟨9, 9⟩).1).captureInputs = true)) := by
  decide

/-- C9 (amended): across every capture-control message, entering capture
saves the current cursor position, and leaving capture issues the OS call
restoring the cursor to the saved position - but the saved position is
retained, not cleared, so only the direction `capturing →
saved_cursor.is_some()` of the spec's invariant holds after the message. -/
theorem C9_capture_cursor (st : SourceState) (flag : Bool) (cur : Point) :
    (((handleSetCaptureInputs st flag cur).1).captureInputs = true →
        ((handleSetCaptureInputs st flag cur).1).cursorPos.isSome = true) ∧
      (flag = true →
        ((handleSetCaptureInputs st flag cur).1).cursorPos = some cur) ∧
      (∀ p : Point, flag = false → st.cursorPos = some p →
        OsCall.setCursorPos p ∈ (handleSetCaptureInputs st flag cur).2 ∧
          ((handleSetCaptureInputs st flag cur).1).cursorPos = some p) := by
  cases flag with
  | true =>
    refine ⟨fun _ => ?_, fun _ => ?_, fun p hp => by cases hp⟩
    · simp [handleSetCaptureInputs]
    · simp [handleSetCaptureInputs]
  | false =>
    cases hcp : st.cursorPos with
    | none =>
      refine ⟨?_, ?_, ?_⟩
      · intro hcap
        simp [handleSetCaptureInputs, hcp] at hcap
      · intro hf
        exact absurd hf (by decide)
      · intro p _ hp
        cases hp
    | some p0 =>
      refine ⟨?_, ?_, ?_⟩
      · intro hcap
        simp [handleSetCaptureInputs, hcp] at hcap
      · intro hf
        exact absurd hf (by decide)
      · intro p _ hp
        obtain rfl : p0 = p := Option.some.inj hp
        constructor
        · simp [handleSetCaptureInputs, hcp]
        · simp [handleSetCaptureInputs, hcp]

/-- Witness for C9 (amended): leaving capture with `(3, 4)` saved restores
the cursor there and keeps the saved position. -/
theorem C9_capture_cursor_witness :
    OsCall.setCursorPos ⟨3, 4⟩ ∈
        (handleSetCaptureInputs ⟨true, some ⟨3, 4⟩⟩ false ⟨0, 0⟩).2 ∧
      ((handleSetCaptureInputs ⟨true, some ⟨3, 4⟩⟩ false ⟨0, 0⟩).1).cursorPos
        = some ⟨3, 4⟩ :=
  (C9_capture_cursor ⟨true, some ⟨3, 4⟩⟩ false ⟨0, 0⟩).2.2 ⟨3, 4⟩ rfl rfl

/-- C10: for every length header `L` - including `L > 1020` - `ReadFrame`
reads all `L` value bytes before the ceiling is checked; when `L > 1020` it
returns the fully parsed frame (tag, length and value) together with
`ErrMaxLengthExceeded` (the `true` flag), having consumed exactly `4 + L`
bytes of the stream (`rest` remains). -/
theorem C10_read_before_check (tag L : Nat) (value rest : List Nat)
    (htag : tag < 65536) (hL : L < 65536) (hlen : value.length = L)
    (hover : ValueMaxLength < L) :
    ReadFrame (writeUint16 tag ++ writeUint16 L ++ value ++ rest) =
      some (⟨tag, L, value⟩, true, rest) := by
  rw [readFrame_concat tag L value rest htag hL hlen, decide_eq_true hover]

/-- Witness for C10: a frame with length header 1021 and a trailing byte
left unread. -/
theorem C10_read_before_check_witness :
    ReadFrame (writeUint16 1 ++ writeUint16 1021 ++
        List.replicate 1021 0 ++ [9]) =
      some (⟨1, 1021, List.replicate 1021 0⟩, true, [9]) :=
  C10_read_before_check 1 1021 (List.replicate 1021 0) [9]
    (by decide) (by decide) (List.length_replicate _ _) (by decide)

end Terong
